import Mathlib

/-!
Verification of the parkour-queue simulation core (src/main.rs).

The embedding below translates the pure state-transforming parts of the
source into Lean definitions.  Machine integers (`i32`, `u32`, `u64`,
`u128`, `usize`) are modelled as `ℤ`/`ℕ` (no arithmetic here ever nears
the machine bounds), `f32`/`f64` arithmetic is idealised as exact `ℝ`/`ℚ`
arithmetic, wall-clock reads become explicit `now : ℕ` parameters, and the
seeded `StdRng` becomes an abstract stream of raw draws where
`gen_range(lo..hi)` reduces the next raw draw into `[lo, hi)` modularly.
World side effects (placing blocks, sounds, chat) are outside the model.
-/

namespace Parkour

/-- Integer block coordinates, from valence `BlockPos`. -/
structure BlockPos where
  x : ℤ
  y : ℤ
  z : ℤ
deriving DecidableEq

/-- `START_POS` from src/main.rs line 30. -/
def START_POS : BlockPos := ⟨0, 100, 0⟩

/-- Abstract model of `StdRng`: an infinite stream of raw natural draws
together with a cursor.  The internal ChaCha generator of `StdRng` is not
reproduced; determinism relative to the stream is what matters here. -/
structure Rng where
  stream : ℕ → ℕ
  idx : ℕ

/-- Advance the stream by one draw. -/
def Rng.next (r : Rng) : Rng := ⟨r.stream, r.idx + 1⟩

/-- Model of `rng.gen_range(lo..hi)`: the next raw draw reduced into
`[lo, hi)` (for `lo < hi`). -/
def genRange (lo hi : ℤ) (r : Rng) : ℤ × Rng :=
  (lo + (r.stream r.idx : ℤ) % (hi - lo), r.next)

/-- One recorded movement sample (`PlayerMovement` in src/main.rs).
The three `f64` coordinates and the `f32` angles are idealised as `ℚ`;
the `u128` millisecond timestamp is a `ℕ`. -/
structure PlayerMovement where
  position : ℚ × ℚ × ℚ
  yaw : ℚ
  pitch : ℚ
  timestamp : ℕ
deriving DecidableEq, Inhabited

/-- Per-player run state (`GameState` component in src/main.rs). -/
structure GameState where
  blocks : List BlockPos
  score : ℕ
  combo : ℕ
  target_y : ℤ
  last_block_timestamp : ℕ
  seed : ℕ
  movements : List PlayerMovement
  movement_start_time : ℕ
  rng : Rng
  recording_started : Bool

/-- The global highscore record (`HighScore` in src/main.rs). -/
structure HighScore where
  username : String
  score : ℕ
  seed : ℕ
  movements : List PlayerMovement
deriving DecidableEq

/-- Translation of `generate_random_block` (src/main.rs lines 701-715).
The Rust match arms
`0 => rng.gen_range(-1..2)`, `y if y > pos.y => 1`, `_ => -1`
become the nested conditionals on `target_y` below. -/
def generate_random_block (pos : BlockPos) (target_y : ℤ) (rng : Rng) :
    BlockPos × Rng :=
  let yr := if target_y = 0 then genRange (-1) 2 rng
            else if pos.y < target_y then ((1 : ℤ), rng)
            else ((-1 : ℤ), rng)
  let zr := if yr.1 = 1 then genRange 1 3 yr.2
            else if yr.1 = -1 then genRange 2 5 yr.2
            else genRange 1 4 yr.2
  let xr := genRange (-3) 4 zr.2
  (⟨pos.x + xr.1, pos.y + yr.1, pos.z + zr.1⟩, xr.2)

/-- Translation of `generate_next_block` (src/main.rs lines 675-699).
With `in_game = true` the oldest foothold is evicted and the score
increments; then a new foothold is generated from the last one, the bias
target is re-evaluated from the previous last foothold, and one further
draw is consumed by `BLOCK_TYPES.choose`.  The source unwraps
`blocks.back()`; the `getLastD` default is never read while the window is
nonempty. -/
def generate_next_block (st : GameState) (in_game : Bool) (now : ℕ) :
    GameState :=
  let st1 := if in_game then
      { st with blocks := st.blocks.tail, score := st.score + 1 }
    else st
  let last_pos := st1.blocks.getLastD START_POS
  let gr := generate_random_block last_pos st1.target_y st1.rng
  let ty : ℤ :=
    if last_pos.y = START_POS.y then 0
    else if last_pos.y < START_POS.y - 30 ∨ last_pos.y > START_POS.y + 30 then
      START_POS.y
    else st1.target_y
  { st1 with
    blocks := st1.blocks ++ [gr.1],
    target_y := ty,
    rng := gr.2.next,
    last_block_timestamp := now }

/-- Repeated non-scoring generation, as in the `for _ in 0..10` refill
loops of `reset_clients` and of the gold-block trigger. -/
def fillBlocks : GameState → ℕ → ℕ → GameState
  | st, 0, _ => st
  | st, n + 1, now => fillBlocks (generate_next_block st false now) n now

/-- Repeated scoring generation, as in the `for _ in 0..index` loop of
`manage_blocks` (src/main.rs lines 605-607). -/
def slideBlocks : GameState → ℕ → ℕ → GameState
  | st, 0, _ => st
  | st, n + 1, now => slideBlocks (generate_next_block st true now) n now

/-- Budget comparison of `manage_blocks` (src/main.rs lines 591-599).
The source computes `max_time_taken = (1000f32 * index / 2f32.powf(combo/45)) as u128`
and tests `elapsed < max_time_taken`; the `f32` arithmetic and the cast
are idealised as the exact real comparison
`elapsed < 1000 * index / 2 ^ (combo / 45)`, restated here as the
equivalent decidable natural-number inequality (see
`withinBudget_iff_real`). -/
def withinBudget (combo index elapsed : ℕ) : Prop :=
  elapsed ^ 45 * 2 ^ combo < (1000 * index) ^ 45

instance (c i e : ℕ) : Decidable (withinBudget c i e) := by
  unfold withinBudget; infer_instance

/-- Translation of the `index > 0` landing branch of `manage_blocks`
(src/main.rs lines 582-607): start recording on a landing at index 1,
update the combo against the time budget, then slide the window `index`
times.  The leaderboard side effects are modelled separately by
`update_score_tracker`. -/
def manage_blocks_landing (st : GameState) (index : ℕ) (now : ℕ) :
    GameState :=
  let st1 :=
    if st.recording_started = false ∧ index = 1 then
      { st with recording_started := true, movement_start_time := now }
    else st
  let elapsed := now - st1.last_block_timestamp
  let st2 :=
    if withinBudget st1.combo index elapsed then
      { st1 with combo := st1.combo + index }
    else
      { st1 with combo := 0 }
  slideBlocks st2 index now

/-- Translation of `record_player_movements` (src/main.rs lines 717-735):
append one sample when recording is active, timestamped relative to
`movement_start_time`. -/
def record_player_movements (pos : ℚ × ℚ × ℚ) (yaw pitch : ℚ) (now : ℕ)
    (st : GameState) : GameState :=
  if st.recording_started then
    { st with movements := st.movements ++
        [⟨pos, yaw, pitch, now - st.movement_start_time⟩] }
  else st

/-- Translation of the per-player reset body of `reset_clients`
(src/main.rs lines 362-398): zero the score and combo, take a fresh seed,
clear the movement log, restart the random stream, clear the recording
flag, rebuild the window as the spawn foothold plus ten generated ones.
The field `target_y` is not assigned here, exactly as in the source.
`seedRng` abstracts `StdRng::seed_from_u64`. -/
def reset_clients (seedRng : ℕ → Rng) (st : GameState) (newSeed : ℕ)
    (now : ℕ) : GameState :=
  let st1 := { st with
    score := 0,
    combo := 0,
    seed := newSeed,
    movements := [],
    movement_start_time := now,
    rng := seedRng newSeed,
    recording_started := false,
    blocks := [START_POS] }
  fillBlocks st1 10 now

/-- Translation of the gold-block replay trigger inside `manage_blocks`
(src/main.rs lines 432-461): switch seed and stream to the record seed,
zero the score, rebuild the window from spawn with ten generated
footholds.  No other `GameState` field is assigned by the trigger itself,
though the refill updates `target_y` and `last_block_timestamp`. -/
def manage_blocks_trigger (seedRng : ℕ → Rng) (st : GameState)
    (hs : HighScore) (now : ℕ) : GameState :=
  let st1 := { st with
    seed := hs.seed,
    rng := seedRng hs.seed,
    score := 0,
    blocks := [START_POS] }
  fillBlocks st1 10 now

/-- The new-highscore test shared verbatim by the fall path
(`reset_clients`, src/main.rs lines 312-316) and the disconnect path
(`handle_disconnected_clients`, lines 893-897). -/
def is_new_highscore (cur : Option HighScore) (score : ℕ) : Bool :=
  match cur with
  | some h => decide (h.score < score)
  | none => decide (0 < score)

/-- The global-record replacement performed on both termination paths
(src/main.rs lines 318-326 and 899-907): replace the record exactly when
`is_new_highscore` holds, otherwise leave it untouched. -/
def submit_highscore (cur : Option HighScore) (f : HighScore) :
    Option HighScore :=
  if is_new_highscore cur f.score then some f else cur

/-- Score of the current record, zero when none exists. -/
def recordScore : Option HighScore → ℕ
  | some h => h.score
  | none => 0

/-- One leaderboard entry: identity and best score (`(String, i32)`). -/
abbrev ScoreEntry := String × ℤ

/-- Descending-by-score order used by
`sort_by(|a, b| b.1.cmp(&a.1))` in the source. -/
def scoreGE (a b : ScoreEntry) : Prop := b.2 ≤ a.2

instance : DecidableRel scoreGE := fun a b => by
  unfold scoreGE; infer_instance

instance : IsTotal ScoreEntry scoreGE :=
  ⟨fun a b => le_total b.2 a.2⟩

instance : IsTrans ScoreEntry scoreGE :=
  ⟨fun _ _ _ h1 h2 => le_trans h2 h1⟩

/-- Stable descending sort by score.  The source uses the stable
`slice::sort_by`; any stable sort agrees with it on a total preorder, and
insertion sort is used here because it is stable and kernel-evaluable. -/
def sortDescByScore (l : List ScoreEntry) : List ScoreEntry :=
  List.insertionSort scoreGE l

/-- The recomputed top-15 snapshot (src/main.rs lines 638-642): collect
the mapping, sort descending by score, truncate to 15. -/
def compute_top_15 (scores : List ScoreEntry) : List ScoreEntry :=
  (sortDescByScore scores).take 15

/-- Lookup in the identity-to-best-score mapping,
`scores.get(&name).copied().unwrap_or(0)`.  The `HashMap` is modelled as
an association list; its iteration order is the list order. -/
def lookupScore (scores : List ScoreEntry) (name : String) : ℤ :=
  match scores.find? (fun p => p.1 == name) with
  | some p => p.2
  | none => 0

/-- Model of `HashMap::insert`: replace the value under an existing key,
or add a new binding. -/
def insertScore (scores : List ScoreEntry) (name : String) (v : ℤ) :
    List ScoreEntry :=
  if scores.any (fun p => p.1 == name) then
    scores.map (fun p => if p.1 == name then (p.1, v) else p)
  else scores ++ [(name, v)]

/-- The score tracker resource (`ScoreTracker` in src/main.rs). -/
structure ScoreTracker where
  scores : List ScoreEntry
  last_saved_top_15 : List ScoreEntry

/-- Translation of the score-tracker update in `manage_blocks`
(src/main.rs lines 632-652): if the new score beats the stored best,
update the mapping, recompute the top 15, and persist exactly when the
snapshot differs from the last-persisted one.  The returned flag records
whether a persist happened; persistence itself is modelled as always
succeeding. -/
def update_score_tracker (tr : ScoreTracker) (name : String)
    (new_score : ℤ) : ScoreTracker × Bool :=
  let old := lookupScore tr.scores name
  if old < new_score then
    let scores := insertScore tr.scores name new_score
    let top := compute_top_15 scores
    if top ≠ tr.last_saved_top_15 then
      (⟨scores, top⟩, true)
    else
      (⟨scores, tr.last_saved_top_15⟩, false)
  else (tr, false)

/-- The replay ghost component (`ReplayNpc` in src/main.rs); the owner
entity handle is replaced by passing the owner score explicitly. -/
structure ReplayNpc where
  movements : List PlayerMovement
  current_index : ℕ
  start_time : ℕ
  replay_started : Bool
deriving DecidableEq

/-- The pose written to the ghost entity by one playback update. -/
structure NpcView where
  position : ℚ × ℚ × ℚ
  yaw : ℚ
  pitch : ℚ
deriving DecidableEq

/-- Outcome of one playback update: the ghost is despawned, or kept with
an optionally rewritten pose. -/
inductive NpcResult where
  | despawn : NpcResult
  | keep : ReplayNpc → Option NpcView → NpcResult
deriving DecidableEq

/-- Linear interpolation `a + (b - a) * t`, as in src/main.rs
lines 809-819. -/
def lerpQ (a b t : ℚ) : ℚ := a + (b - a) * t

/-- The interpolation fraction computed by the source (src/main.rs
lines 799-806): saturating subtractions on `u128` timestamps, the ratio
guarded by `time_diff > 0` with fallback `1.0`, then `clamp(0.0, 1.0)`. -/
def codeFraction (curTs nextTs elapsed : ℕ) : ℚ :=
  let time_diff := nextTs - curTs
  let time_since := elapsed - curTs
  let t : ℚ := if 0 < time_diff then (time_since : ℚ) / (time_diff : ℚ) else 1
  min 1 (max 0 t)

/-- Modelled from the spec: the fraction
`t = clamp((elapsed - cur.timestamp) / (next.timestamp - cur.timestamp), 0, 1)`,
defined as `1` if the two timestamps are equal, written with exact
(signed) arithmetic as the spec states it.  Compared against
`codeFraction` in the C9 theorem. -/
def specFraction (curTs nextTs elapsed : ℕ) : ℚ :=
  if curTs = nextTs then 1
  else min 1 (max 0 (((elapsed : ℚ) - curTs) / ((nextTs : ℚ) - curTs)))

/-- The cursor-advance loop of `update_replay_npcs` (src/main.rs
lines 780-786), written with explicit fuel so that it is structurally
recursive; with `fuel = movements.length` (as `advanceCursor` passes) the
loop guard always fails before the fuel runs out, so this equals the
source `while` loop. -/
def advanceLoop (ms : List PlayerMovement) (elapsed : ℕ) :
    ℕ → ℕ → ℕ
  | 0, idx => idx
  | fuel + 1, idx =>
    if idx + 1 < ms.length ∧ (ms.getD (idx + 1) default).timestamp ≤ elapsed
    then advanceLoop ms elapsed fuel (idx + 1)
    else idx

/-- Advance the playback cursor while the next sample timestamp is at
most `elapsed`. -/
def advanceCursor (ms : List PlayerMovement) (elapsed idx : ℕ) : ℕ :=
  advanceLoop ms elapsed ms.length idx

/-- Translation of the per-ghost body of `update_replay_npcs`
(src/main.rs lines 749-830): start playback once the owner has scored,
keep a not-yet-started ghost frozen, despawn on an empty log or an
exhausted cursor, otherwise advance the cursor and output either the
interpolated pose or the held last sample. -/
def update_replay_npc (owner_score : ℕ) (replay : ReplayNpc) (now : ℕ) :
    NpcResult :=
  let replay :=
    if 0 < owner_score ∧ replay.replay_started = false then
      { replay with replay_started := true, start_time := now }
    else replay
  if replay.replay_started = false then .keep replay none
  else if replay.movements = [] then .despawn
  else
    let elapsed := now - replay.start_time
    let idx := advanceCursor replay.movements elapsed replay.current_index
    if replay.movements.length ≤ idx then .despawn
    else
      let cur := replay.movements.getD idx default
      if idx < replay.movements.length - 1 then
        let next := replay.movements.getD (idx + 1) default
        let t := codeFraction cur.timestamp next.timestamp elapsed
        .keep { replay with current_index := idx }
          (some ⟨(lerpQ cur.position.1 next.position.1 t,
                  lerpQ cur.position.2.1 next.position.2.1 t,
                  lerpQ cur.position.2.2 next.position.2.2 t),
                 lerpQ cur.yaw next.yaw t,
                 lerpQ cur.pitch next.pitch t⟩)
      else
        .keep { replay with current_index := idx }
          (some ⟨cur.position, cur.yaw, cur.pitch⟩)

/-! ### Helper lemmas about the path generator and the window loops -/

/-- The foothold appended by one generation step, as a function of the
window, bias target and stream. -/
def nextBlockOf (blocks : List BlockPos) (ty : ℤ) (rng : Rng) : BlockPos :=
  (generate_random_block (blocks.getLastD START_POS) ty rng).1

/-- Altitude of the newest foothold in the window. -/
def lastY (st : GameState) : ℤ := (st.blocks.getLastD START_POS).y

lemma gnb_combo (st : GameState) (g : Bool) (now : ℕ) :
    (generate_next_block st g now).combo = st.combo := by
  cases g <;> simp [generate_next_block]

lemma gnb_movements (st : GameState) (g : Bool) (now : ℕ) :
    (generate_next_block st g now).movements = st.movements := by
  cases g <;> simp [generate_next_block]

lemma gnb_recording (st : GameState) (g : Bool) (now : ℕ) :
    (generate_next_block st g now).recording_started = st.recording_started := by
  cases g <;> simp [generate_next_block]

lemma gnb_mst (st : GameState) (g : Bool) (now : ℕ) :
    (generate_next_block st g now).movement_start_time = st.movement_start_time := by
  cases g <;> simp [generate_next_block]

lemma gnb_seed (st : GameState) (g : Bool) (now : ℕ) :
    (generate_next_block st g now).seed = st.seed := by
  cases g <;> simp [generate_next_block]

lemma gnb_score_false (st : GameState) (now : ℕ) :
    (generate_next_block st false now).score = st.score := by
  simp [generate_next_block]

lemma gnb_score_true (st : GameState) (now : ℕ) :
    (generate_next_block st true now).score = st.score + 1 := by
  simp [generate_next_block]

lemma gnb_blocks_false (st : GameState) (now : ℕ) :
    (generate_next_block st false now).blocks =
      st.blocks ++ [nextBlockOf st.blocks st.target_y st.rng] := by
  simp [generate_next_block, nextBlockOf]

lemma gnb_blocks_true (st : GameState) (now : ℕ) :
    (generate_next_block st true now).blocks =
      st.blocks.tail ++ [nextBlockOf st.blocks.tail st.target_y st.rng] := by
  simp [generate_next_block, nextBlockOf]

/-- The vertical step of one generated foothold is always in `[-1, 1]`:
the Neutral draw ranges over `{-1, 0, 1}` and the biased branches force
`1` or `-1`. -/
lemma grb_dy_bound (pos : BlockPos) (ty : ℤ) (rng : Rng) :
    -1 ≤ (generate_random_block pos ty rng).1.y - pos.y ∧
      (generate_random_block pos ty rng).1.y - pos.y ≤ 1 := by
  unfold generate_random_block genRange
  have h0 : (0 : ℤ) ≤ (rng.stream rng.idx : ℤ) % 3 :=
    Int.emod_nonneg _ (by norm_num)
  have h1 : (rng.stream rng.idx : ℤ) % 3 < 3 :=
    Int.emod_lt_of_pos _ (by norm_num)
  split_ifs <;> simp <;> omega

lemma gnb_lastY_bound (st : GameState) (now : ℕ) :
    lastY st - 1 ≤ lastY (generate_next_block st false now) ∧
      lastY (generate_next_block st false now) ≤ lastY st + 1 := by
  have h := grb_dy_bound (st.blocks.getLastD START_POS) st.target_y st.rng
  have hb : (generate_next_block st false now).blocks =
      st.blocks ++ [nextBlockOf st.blocks st.target_y st.rng] :=
    gnb_blocks_false st now
  unfold lastY
  rw [hb, List.getLastD_concat]
  unfold nextBlockOf
  unfold lastY at *
  omega

/-- Bias re-evaluation keeps the target at Neutral while the previous
last foothold stays within 30 of the baseline altitude. -/
lemma gnb_target_zero (st : GameState) (now : ℕ)
    (h0 : st.target_y = 0) (hlo : 70 ≤ lastY st) (hhi : lastY st ≤ 130) :
    (generate_next_block st false now).target_y = 0 := by
  have h100 : START_POS.y = 100 := rfl
  simp only [lastY, List.getLastD_eq_getLast?] at hlo hhi
  simp [generate_next_block]
  split_ifs <;> omega

/-- Bias re-evaluation switches to Neutral whenever the previous last
foothold sits exactly at the baseline altitude, whatever the prior
target. -/
lemma gnb_target_start (st : GameState) (now : ℕ)
    (h : lastY st = 100) :
    (generate_next_block st false now).target_y = 0 := by
  have h100 : START_POS.y = 100 := rfl
  simp only [lastY, List.getLastD_eq_getLast?] at h
  simp [generate_next_block]
  split_ifs <;> omega

lemma fillBlocks_succ (st : GameState) (n now : ℕ) :
    fillBlocks st (n + 1) now = fillBlocks (generate_next_block st false now) n now := rfl

lemma slideBlocks_succ (st : GameState) (n now : ℕ) :
    slideBlocks st (n + 1) now = slideBlocks (generate_next_block st true now) n now := rfl

lemma fillBlocks_preserves (n : ℕ) :
    ∀ (st : GameState) (now : ℕ),
      (fillBlocks st n now).score = st.score ∧
      (fillBlocks st n now).combo = st.combo ∧
      (fillBlocks st n now).movements = st.movements ∧
      (fillBlocks st n now).recording_started = st.recording_started ∧
      (fillBlocks st n now).movement_start_time = st.movement_start_time ∧
      (fillBlocks st n now).seed = st.seed := by
  induction n with
  | zero => intro st now; simp [fillBlocks]
  | succ n ih =>
    intro st now
    rw [fillBlocks_succ]
    obtain ⟨h1, h2, h3, h4, h5, h6⟩ := ih (generate_next_block st false now) now
    exact ⟨by rw [h1, gnb_score_false], by rw [h2, gnb_combo],
      by rw [h3, gnb_movements], by rw [h4, gnb_recording],
      by rw [h5, gnb_mst], by rw [h6, gnb_seed]⟩

lemma slideBlocks_preserves (n : ℕ) :
    ∀ (st : GameState) (now : ℕ),
      (slideBlocks st n now).combo = st.combo ∧
      (slideBlocks st n now).movements = st.movements ∧
      (slideBlocks st n now).recording_started = st.recording_started ∧
      (slideBlocks st n now).movement_start_time = st.movement_start_time ∧
      (slideBlocks st n now).seed = st.seed := by
  induction n with
  | zero => intro st now; simp [slideBlocks]
  | succ n ih =>
    intro st now
    rw [slideBlocks_succ]
    obtain ⟨h2, h3, h4, h5, h6⟩ := ih (generate_next_block st true now) now
    exact ⟨by rw [h2, gnb_combo], by rw [h3, gnb_movements],
      by rw [h4, gnb_recording], by rw [h5, gnb_mst], by rw [h6, gnb_seed]⟩

lemma slideBlocks_score (n : ℕ) :
    ∀ (st : GameState) (now : ℕ),
      (slideBlocks st n now).score = st.score + n := by
  induction n with
  | zero => intro st now; simp [slideBlocks]
  | succ n ih =>
    intro st now
    rw [slideBlocks_succ, ih, gnb_score_true]
    omega

/-- After `n` scoring slides from a window longer than `n`, the window is
the old window with its `n` oldest entries removed and `n` freshly
generated footholds appended. -/
lemma slideBlocks_shape (n : ℕ) :
    ∀ (st : GameState) (now : ℕ), n < st.blocks.length →
      ∃ fresh : List BlockPos,
        (slideBlocks st n now).blocks = st.blocks.drop n ++ fresh ∧
        fresh.length = n := by
  induction n with
  | zero => intro st now _; exact ⟨[], by simp [slideBlocks]⟩
  | succ n ih =>
    intro st now hlen
    rw [slideBlocks_succ]
    have hblocks := gnb_blocks_true st now
    have hlen1 : n < (generate_next_block st true now).blocks.length := by
      rw [hblocks]
      simp [List.length_tail]
      omega
    obtain ⟨fresh, hf, hfl⟩ := ih (generate_next_block st true now) now hlen1
    have htail : st.blocks.tail.drop n = st.blocks.drop (n + 1) := by
      cases st.blocks with
      | nil => simp
      | cons a l => simp
    have hdrople : n ≤ st.blocks.tail.length := by
      simp [List.length_tail]
      omega
    refine ⟨[nextBlockOf st.blocks.tail st.target_y st.rng] ++ fresh, ?_, ?_⟩
    · rw [hf, hblocks, List.drop_append_of_le_length hdrople, htail,
        List.append_assoc]
    · simp [hfl]

/-- A non-scoring refill only appends: after `n` steps the window is the
old window followed by `n` generated footholds. -/
lemma fillBlocks_shape (n : ℕ) :
    ∀ (st : GameState) (now : ℕ),
      ∃ fresh : List BlockPos,
        (fillBlocks st n now).blocks = st.blocks ++ fresh ∧
        fresh.length = n := by
  induction n with
  | zero => intro st now; exact ⟨[], by simp [fillBlocks]⟩
  | succ n ih =>
    intro st now
    rw [fillBlocks_succ]
    obtain ⟨fresh, hf, hfl⟩ := ih (generate_next_block st false now) now
    refine ⟨[nextBlockOf st.blocks st.target_y st.rng] ++ fresh, ?_, ?_⟩
    · rw [hf, gnb_blocks_false, List.append_assoc]
    · simp [hfl]

/-- While the bias target is Neutral and the last altitude stays in the
band `[70 + n, 130 - n]`, `n` further refill steps keep the target
Neutral (each step moves the last altitude by at most one, so the
out-of-band switch can never fire). -/
lemma fillBlocks_target_zero (n : ℕ) :
    ∀ (st : GameState) (now : ℕ),
      st.target_y = 0 → 70 + (n : ℤ) ≤ lastY st → lastY st ≤ 130 - (n : ℤ) →
      (fillBlocks st n now).target_y = 0 := by
  induction n with
  | zero => intro st now h0 _ _; simpa [fillBlocks] using h0
  | succ n ih =>
    intro st now h0 hlo hhi
    rw [fillBlocks_succ]
    have hband := gnb_lastY_bound st now
    have htz : (generate_next_block st false now).target_y = 0 :=
      gnb_target_zero st now h0 (by push_cast at hlo; omega)
        (by push_cast at hhi; omega)
    refine ih (generate_next_block st false now) now htz ?_ ?_
    · push_cast at hlo ⊢; omega
    · push_cast at hhi ⊢; omega

/-- After the clear-and-refill of a reset or of the replay trigger, the
bias target is Neutral: the spawn foothold sits at the baseline altitude,
so the very first refill step switches the target to Neutral, and nine
more steps cannot leave the band. -/
lemma fillBlocks_from_spawn_target (st : GameState) (now : ℕ)
    (hb : st.blocks = [START_POS]) :
    (fillBlocks st 10 now).target_y = 0 := by
  rw [show (10 : ℕ) = 9 + 1 from rfl, fillBlocks_succ]
  have hlast : lastY st = 100 := by
    unfold lastY
    rw [hb]
    rfl
  have htz : (generate_next_block st false now).target_y = 0 :=
    gnb_target_start st now hlast
  have hband := gnb_lastY_bound st now
  refine fillBlocks_target_zero 9 (generate_next_block st false now) now htz ?_ ?_
  · push_cast; omega
  · push_cast; omega

/-- The decidable budget test agrees with the exact version of the
source formula `elapsed < 1000 * index / 2 ^ (combo / 45)`. -/
lemma withinBudget_iff_real (c i e : ℕ) :
    withinBudget c i e ↔ (e : ℝ) < 1000 * i / 2 ^ ((c : ℝ) / 45) := by
  have h2pos : (0 : ℝ) < 2 ^ ((c : ℝ) / 45) :=
    Real.rpow_pos_of_pos (by norm_num) _
  rw [lt_div_iff₀ h2pos]
  rw [show ((1000 : ℝ) * i) = ((1000 * i : ℕ) : ℝ) by push_cast; ring]
  rw [← pow_lt_pow_iff_left₀ (a := (e : ℝ) * 2 ^ ((c : ℝ) / 45))
    (b := ((1000 * i : ℕ) : ℝ)) (by positivity) (by positivity)
    (show 45 ≠ 0 by norm_num)]
  rw [mul_pow]
  have hp : ((2 : ℝ) ^ ((c : ℝ) / 45)) ^ (45 : ℕ) = 2 ^ (c : ℕ) := by
    have hc : (c : ℝ) / 45 * ((45 : ℕ) : ℝ) = (c : ℝ) := by
      push_cast
      field_simp
    rw [← Real.rpow_natCast ((2 : ℝ) ^ ((c : ℝ) / 45)) 45,
      ← Real.rpow_mul (by norm_num), hc]
    exact_mod_cast Real.rpow_natCast 2 c
  rw [hp]
  unfold withinBudget
  constructor
  · intro h; exact_mod_cast h
  · intro h; exact_mod_cast h

/-! ### Projection lemmas for the landing step -/

lemma slideBlocks_combo (n : ℕ) (st : GameState) (now : ℕ) :
    (slideBlocks st n now).combo = st.combo :=
  (slideBlocks_preserves n st now).1

lemma slideBlocks_movements (n : ℕ) (st : GameState) (now : ℕ) :
    (slideBlocks st n now).movements = st.movements :=
  (slideBlocks_preserves n st now).2.1

lemma slideBlocks_recording (n : ℕ) (st : GameState) (now : ℕ) :
    (slideBlocks st n now).recording_started = st.recording_started :=
  (slideBlocks_preserves n st now).2.2.1

lemma slideBlocks_mst (n : ℕ) (st : GameState) (now : ℕ) :
    (slideBlocks st n now).movement_start_time = st.movement_start_time :=
  (slideBlocks_preserves n st now).2.2.2.1

lemma landing_score (st : GameState) (i now : ℕ) :
    (manage_blocks_landing st i now).score = st.score + i := by
  unfold manage_blocks_landing
  simp only [slideBlocks_score]
  split_ifs <;> rfl

lemma landing_exists_mid (st : GameState) (i now : ℕ) :
    ∃ st2 : GameState,
      manage_blocks_landing st i now = slideBlocks st2 i now ∧
      st2.blocks = st.blocks := by
  unfold manage_blocks_landing
  refine ⟨_, rfl, ?_⟩
  split_ifs <;> rfl

lemma landing_blocks_shape (st : GameState) (i now : ℕ)
    (h : i < st.blocks.length) :
    ∃ fresh : List BlockPos,
      (manage_blocks_landing st i now).blocks = st.blocks.drop i ++ fresh ∧
      fresh.length = i := by
  obtain ⟨st2, he, hb⟩ := landing_exists_mid st i now
  rw [he]
  have h2 : i < st2.blocks.length := by rw [hb]; exact h
  obtain ⟨fresh, hf, hfl⟩ := slideBlocks_shape i st2 now h2
  rw [hb] at hf
  exact ⟨fresh, hf, hfl⟩

lemma landing_combo (st : GameState) (i now : ℕ) :
    (manage_blocks_landing st i now).combo =
      if withinBudget st.combo i (now - st.last_block_timestamp) then
        st.combo + i
      else 0 := by
  unfold manage_blocks_landing
  simp only [slideBlocks_combo]
  split_ifs <;> simp_all

lemma landing_movements (st : GameState) (i now : ℕ) :
    (manage_blocks_landing st i now).movements = st.movements := by
  unfold manage_blocks_landing
  simp only [slideBlocks_movements]
  split_ifs <;> rfl

lemma landing_recording (st : GameState) (i now : ℕ) :
    (manage_blocks_landing st i now).recording_started =
      (st.recording_started || decide (i = 1)) := by
  unfold manage_blocks_landing
  simp only [slideBlocks_recording]
  rcases Bool.eq_false_or_eq_true st.recording_started with hb | hb <;>
    split_ifs <;> simp_all

lemma landing_mst (st : GameState) (i now : ℕ) :
    (manage_blocks_landing st i now).movement_start_time =
      if st.recording_started = false ∧ i = 1 then now
      else st.movement_start_time := by
  unfold manage_blocks_landing
  simp only [slideBlocks_mst]
  split_ifs <;> simp_all

/-! ### Concrete states used by witnesses and counterexamples -/

/-- An eleven-foothold window as produced by a reset (spawn plus ten). -/
def blocks11 : List BlockPos :=
  [⟨0, 100, 0⟩, ⟨0, 100, 2⟩, ⟨0, 100, 4⟩, ⟨0, 100, 6⟩, ⟨0, 100, 8⟩,
   ⟨0, 100, 10⟩, ⟨0, 100, 12⟩, ⟨0, 100, 14⟩, ⟨0, 100, 16⟩, ⟨0, 100, 18⟩,
   ⟨0, 100, 20⟩]

/-- A freshly reset run state over `blocks11`. -/
def stW : GameState :=
  ⟨blocks11, 0, 0, 0, 0, 0, [], 0, ⟨fun _ => 0, 0⟩, false⟩

/-- A concrete seeding function for closed evaluations. -/
def seedRng1 : ℕ → Rng := fun _ => ⟨fun _ => 1, 0⟩

/-! ### C1, C2, C5 -/

/-- C1: a landing found at window index `i > 0` on an eleven-foothold
window adds exactly `i` to the score and slides the window by exactly
`i`: the `i` oldest footholds are removed, `i` freshly generated ones are
appended, and the window again holds exactly eleven footholds. -/
theorem landing_score_and_window (st : GameState) (i now : ℕ)
    (h11 : st.blocks.length = 11) (hi : 0 < i) (hlt : i < 11) :
    (manage_blocks_landing st i now).score = st.score + i ∧
    (manage_blocks_landing st i now).blocks.length = 11 ∧
    ∃ fresh : List BlockPos,
      (manage_blocks_landing st i now).blocks = st.blocks.drop i ++ fresh ∧
      fresh.length = i := by
  obtain ⟨fresh, hf, hfl⟩ := landing_blocks_shape st i now (by omega)
  refine ⟨landing_score st i now, ?_, fresh, hf, hfl⟩
  rw [hf]
  simp [List.length_drop, h11, hfl]
  omega

/-- Witness for C1 at a concrete state and landing index 2. -/
theorem landing_score_and_window_witness :
    stW.blocks.length = 11 ∧ 0 < 2 ∧ 2 < 11 ∧
    ((manage_blocks_landing stW 2 100).score = stW.score + 2 ∧
     (manage_blocks_landing stW 2 100).blocks.length = 11 ∧
     ∃ fresh : List BlockPos,
       (manage_blocks_landing stW 2 100).blocks = stW.blocks.drop 2 ++ fresh ∧
       fresh.length = 2) :=
  ⟨by decide, by decide, by decide,
   landing_score_and_window stW 2 100 (by decide) (by decide) (by decide)⟩

/-- C2: on a landing at index `i > 0` with combo `c` and elapsed time
`e` since the previous landing, the allowed budget is
`1000 * i / 2 ^ (c / 45)` milliseconds; if `e` is below the budget the
combo becomes `c + i`, otherwise it becomes exactly 0.  The source f32
arithmetic is idealised as exact real arithmetic. -/
theorem landing_combo_budget (st : GameState) (i now : ℕ) (hi : 0 < i) :
    (((now - st.last_block_timestamp : ℕ) : ℝ) <
        1000 * i / 2 ^ ((st.combo : ℝ) / 45) →
      (manage_blocks_landing st i now).combo = st.combo + i) ∧
    (1000 * i / 2 ^ ((st.combo : ℝ) / 45) ≤
        ((now - st.last_block_timestamp : ℕ) : ℝ) →
      (manage_blocks_landing st i now).combo = 0) := by
  constructor
  · intro h
    rw [landing_combo, if_pos ((withinBudget_iff_real _ _ _).mpr h)]
  · intro h
    rw [landing_combo, if_neg]
    intro hw
    exact absurd ((withinBudget_iff_real _ _ _).mp hw) (not_lt.mpr h)

/-- Witness for C2: combo 0, landing index 3, elapsed 100 ms, budget
3000 ms, so the combo becomes 3. -/
theorem landing_combo_budget_witness :
    0 < 3 ∧ (manage_blocks_landing stW 3 100).combo = stW.combo + 3 :=
  ⟨by decide,
   (landing_combo_budget stW 3 100 (by decide)).1 (by
     simp [stW]
     norm_num)⟩

/-- C5 counterexample: a first landing at window index 2 does not start
recording (the source requires index exactly 1), refuting the claim that
recording begins at the first landing whatever its index. -/
theorem recording_first_landing_counterexample :
    stW.recording_started = false ∧ (0 : ℕ) < 2 ∧
    (manage_blocks_landing stW 2 100).recording_started = false := by
  refine ⟨rfl, by decide, by decide⟩

/-- C5 amended: recording starts exactly at the first landing at window
index 1 — on a landing at index `i > 0` the flag becomes true precisely
when it was already true or `i = 1`, the recording start time is
captured at that moment, landings at other indices leave the recorder
untouched, and no sample is appended while the flag is off. -/
theorem recording_first_landing_amended (st : GameState) (i now : ℕ)
    (hi : 0 < i) :
    (manage_blocks_landing st i now).recording_started =
      (st.recording_started || decide (i = 1)) ∧
    (st.recording_started = false → i = 1 →
      (manage_blocks_landing st i now).movement_start_time = now) ∧
    (st.recording_started = false → i ≠ 1 →
      (manage_blocks_landing st i now).movement_start_time =
        st.movement_start_time) ∧
    (manage_blocks_landing st i now).movements = st.movements ∧
    (∀ p y pc t, st.recording_started = false →
      record_player_movements p y pc t st = st) := by
  refine ⟨landing_recording st i now, ?_, ?_, landing_movements st i now, ?_⟩
  · intro h1 h2
    rw [landing_mst, if_pos ⟨h1, h2⟩]
  · intro h1 h2
    rw [landing_mst, if_neg]
    tauto
  · intro p y pc t h
    unfold record_player_movements
    simp [h]

/-- Witness for C5 amended at landing index 1. -/
theorem recording_first_landing_amended_witness :
    0 < 1 ∧
    ((manage_blocks_landing stW 1 50).recording_started =
      (stW.recording_started || decide ((1 : ℕ) = 1)) ∧
     (stW.recording_started = false → (1 : ℕ) = 1 →
       (manage_blocks_landing stW 1 50).movement_start_time = 50) ∧
     (stW.recording_started = false → (1 : ℕ) ≠ 1 →
       (manage_blocks_landing stW 1 50).movement_start_time =
         stW.movement_start_time) ∧
     (manage_blocks_landing stW 1 50).movements = stW.movements ∧
     (∀ p y pc t, stW.recording_started = false →
       record_player_movements p y pc t stW = stW)) :=
  ⟨by decide, recording_first_landing_amended stW 1 50 (by decide)⟩

/-! ### C6, C10 -/

/-- A run state with a ReturnToBaseline bias target, used to exhibit the
bias dependence of reset and trigger refills. -/
def stB : GameState :=
  ⟨blocks11, 3, 4, 100, 0, 0, [], 0, ⟨fun _ => 0, 0⟩, true⟩

/-- C6 counterexample: two states that agree on every field except the
bias target produce different windows after the same reset, so reset
does not reset the vertical-bias mode before refilling - the first
refill generation step still uses the prior bias. -/
theorem reset_bias_counterexample :
    (reset_clients seedRng1 { stB with target_y := 0 } 7 0).blocks ≠
      (reset_clients seedRng1 stB 7 0).blocks := by
  decide

/-- C6 amended: reset clears the window and refills it with the spawn
foothold plus ten generated ones while the score stays 0 (the refill is
non-scoring), resets score, combo, the movement log and the recording
flags, and re-seeds the stream; the vertical-bias mode is not reset
before the refill (the first generated foothold still uses the prior
bias, as the counterexample shows), though after the refill the bias is
Neutral because the spawn foothold sits at the baseline altitude. -/
theorem reset_clients_amended (seedRng : ℕ → Rng) (st : GameState)
    (newSeed now : ℕ) :
    (reset_clients seedRng st newSeed now).score = 0 ∧
    (reset_clients seedRng st newSeed now).combo = 0 ∧
    (reset_clients seedRng st newSeed now).recording_started = false ∧
    (reset_clients seedRng st newSeed now).movements = [] ∧
    (reset_clients seedRng st newSeed now).movement_start_time = now ∧
    (reset_clients seedRng st newSeed now).seed = newSeed ∧
    (reset_clients seedRng st newSeed now).blocks.length = 11 ∧
    (reset_clients seedRng st newSeed now).blocks.head? = some START_POS ∧
    (reset_clients seedRng st newSeed now).target_y = 0 := by
  have he : reset_clients seedRng st newSeed now =
      fillBlocks { st with
        score := 0, combo := 0, seed := newSeed, movements := [],
        movement_start_time := now, rng := seedRng newSeed,
        recording_started := false, blocks := [START_POS] } 10 now := rfl
  obtain ⟨h1, h2, h3, h4, h5, h6⟩ :=
    fillBlocks_preserves 10 { st with
      score := 0, combo := 0, seed := newSeed, movements := [],
      movement_start_time := now, rng := seedRng newSeed,
      recording_started := false, blocks := [START_POS] } now
  obtain ⟨fresh, hf, hfl⟩ :=
    fillBlocks_shape 10 { st with
      score := 0, combo := 0, seed := newSeed, movements := [],
      movement_start_time := now, rng := seedRng newSeed,
      recording_started := false, blocks := [START_POS] } now
  have ht := fillBlocks_from_spawn_target { st with
      score := 0, combo := 0, seed := newSeed, movements := [],
      movement_start_time := now, rng := seedRng newSeed,
      recording_started := false, blocks := [START_POS] } now rfl
  rw [he]
  refine ⟨h1, h2, h4, h3, h5, h6, ?_, ?_, ht⟩
  · rw [hf]
    simp [hfl]
  · rw [hf]
    simp

/-- State used by the C10 counterexample: identical to a fresh state but
with a ReturnToBaseline bias target. -/
def stT : GameState :=
  ⟨blocks11, 6, 7, 100, 3, 9, [], 2, ⟨fun _ => 0, 0⟩, false⟩

/-- The champion record used by trigger examples. -/
def hsW : HighScore := ⟨"champ", 5, 42, []⟩

/-- C10 counterexample: the replay trigger does not leave the
vertical-bias mode unchanged - the refill it performs switches the bias
target back to Neutral. -/
theorem trigger_bias_counterexample :
    stT.target_y = 100 ∧
    (manage_blocks_trigger seedRng1 stT hsW 5).target_y ≠ stT.target_y := by
  refine ⟨rfl, by decide⟩

/-- C10 amended: the replay trigger zeroes the score, replaces the seed,
the stream and the window (spawn foothold plus ten generated), and leaves
combo, the recorded movement log, recording flag and recording start time
unchanged - in particular an in-progress recording keeps appending to the
previous movement log - but the vertical-bias mode and the last-landing
timestamp are updated by the regeneration, the bias ending at Neutral. -/
theorem trigger_frame_amended (seedRng : ℕ → Rng) (st : GameState)
    (hs : HighScore) (now : ℕ) :
    (manage_blocks_trigger seedRng st hs now).score = 0 ∧
    (manage_blocks_trigger seedRng st hs now).seed = hs.seed ∧
    (manage_blocks_trigger seedRng st hs now).combo = st.combo ∧
    (manage_blocks_trigger seedRng st hs now).movements = st.movements ∧
    (manage_blocks_trigger seedRng st hs now).recording_started =
      st.recording_started ∧
    (manage_blocks_trigger seedRng st hs now).movement_start_time =
      st.movement_start_time ∧
    (manage_blocks_trigger seedRng st hs now).blocks.length = 11 ∧
    (manage_blocks_trigger seedRng st hs now).blocks.head? =
      some START_POS ∧
    (manage_blocks_trigger seedRng st hs now).target_y = 0 ∧
    (st.recording_started = true → ∀ p y pc t,
      (record_player_movements p y pc t
        (manage_blocks_trigger seedRng st hs now)).movements =
      st.movements ++ [⟨p, y, pc, t - st.movement_start_time⟩]) := by
  have he : manage_blocks_trigger seedRng st hs now =
      fillBlocks { st with
        seed := hs.seed, rng := seedRng hs.seed, score := 0,
        blocks := [START_POS] } 10 now := rfl
  obtain ⟨h1, h2, h3, h4, h5, h6⟩ :=
    fillBlocks_preserves 10 { st with
      seed := hs.seed, rng := seedRng hs.seed, score := 0,
      blocks := [START_POS] } now
  obtain ⟨fresh, hf, hfl⟩ :=
    fillBlocks_shape 10 { st with
      seed := hs.seed, rng := seedRng hs.seed, score := 0,
      blocks := [START_POS] } now
  have ht := fillBlocks_from_spawn_target { st with
      seed := hs.seed, rng := seedRng hs.seed, score := 0,
      blocks := [START_POS] } now rfl
  rw [he]
  refine ⟨h1, h6, h2, h3, h4, h5, ?_, ?_, ht, ?_⟩
  · rw [hf]
    simp [hfl]
  · rw [hf]
    simp
  · intro hr p y pc t
    unfold record_player_movements
    rw [if_pos (by rw [h4]; exact hr)]
    simp [h3, h5]

/-- Witness for C10 amended: an in-progress recording keeps appending to
the previous movement log after the trigger. -/
theorem trigger_frame_amended_witness :
    { stT with recording_started := true }.recording_started = true ∧
    (record_player_movements (0, 0, 0) 0 0 9
      (manage_blocks_trigger seedRng1
        { stT with recording_started := true } hsW 5)).movements =
    { stT with recording_started := true }.movements ++
      [⟨(0, 0, 0), 0, 0,
        9 - { stT with recording_started := true }.movement_start_time⟩] :=
  ⟨rfl,
   (trigger_frame_amended seedRng1 { stT with recording_started := true }
     hsW 5).2.2.2.2.2.2.2.2.2 rfl (0, 0, 0) 0 0 9⟩

/-! ### C4: global highscore replacement -/

lemma is_new_highscore_iff (cur : Option HighScore) (s : ℕ) :
    is_new_highscore cur s = true ↔ recordScore cur < s := by
  cases cur <;> simp [is_new_highscore, recordScore]

lemma submit_highscore_mono (cur : Option HighScore) (f : HighScore) :
    recordScore cur ≤ recordScore (submit_highscore cur f) := by
  unfold submit_highscore
  split_ifs with h
  · exact le_of_lt ((is_new_highscore_iff cur f.score).mp h)
  · exact le_rfl

/-- C4: the global record is replaced exactly when the finished score is
strictly greater than the current record score (with the empty record
counting as score 0, so with no record any positive score qualifies); a
replacement installs the finished run and strictly increases the record
score, a non-qualifying run leaves the record untouched, and over any
sequence of submissions the record score never decreases.  Both
termination paths (the fall path in `reset_clients` and the disconnect
path in `handle_disconnected_clients`) run this same test and
replacement verbatim. -/
theorem highscore_replacement (cur : Option HighScore) (f : HighScore) :
    (submit_highscore cur f ≠ cur ↔ recordScore cur < f.score) ∧
    (recordScore cur < f.score →
      submit_highscore cur f = some f ∧
      recordScore cur < recordScore (submit_highscore cur f)) ∧
    (¬ recordScore cur < f.score → submit_highscore cur f = cur) ∧
    (∀ runs : List HighScore,
      recordScore cur ≤ recordScore (runs.foldl submit_highscore cur)) := by
  have hiff := is_new_highscore_iff cur f.score
  refine ⟨⟨?_, ?_⟩, ?_, ?_, ?_⟩
  · intro hne
    by_contra hlt
    unfold submit_highscore at hne
    rw [if_neg] at hne
    · exact hne rfl
    · intro hb
      exact hlt (hiff.mp hb)
  · intro hlt
    have hb := hiff.mpr hlt
    unfold submit_highscore
    rw [if_pos hb]
    cases cur with
    | none => simp
    | some h =>
      simp only [recordScore] at hlt
      intro hc
      rw [Option.some.injEq] at hc
      rw [hc] at hlt
      exact lt_irrefl _ hlt
  · intro hlt
    have hb := hiff.mpr hlt
    unfold submit_highscore
    rw [if_pos hb]
    refine ⟨rfl, ?_⟩
    simpa [recordScore] using hlt
  · intro hlt
    unfold submit_highscore
    rw [if_neg]
    intro hb
    exact hlt (hiff.mp hb)
  · intro runs
    clear hiff
    induction runs generalizing cur with
    | nil => simp
    | cons r rs ih =>
      simp only [List.foldl_cons]
      exact le_trans (submit_highscore_mono cur r) (ih (submit_highscore cur r))

/-- Witness for C4: from an empty record, a run with score 5 becomes the
global record. -/
theorem highscore_replacement_witness :
    recordScore none < hsW.score ∧
    (submit_highscore none hsW = some hsW ∧
     recordScore none < recordScore (submit_highscore none hsW)) :=
  ⟨by decide, (highscore_replacement none hsW).2.1 (by decide)⟩

/-! ### C3: generator step distribution -/

lemma int_emod_bounds (a d : ℤ) (hd : 0 < d) : 0 ≤ a % d ∧ a % d < d :=
  ⟨Int.emod_nonneg a (ne_of_gt hd), Int.emod_lt_of_pos a hd⟩

/-- One generation step decomposes as `last + (dx, dy, dz)` with the
branch structure of the source: Neutral draws `dy` from `{-1, 0, 1}`,
ReturnToBaseline forces `dy`, and the `dz` range depends on `dy`. -/
lemma generate_random_block_cases (pos : BlockPos) (ty : ℤ) (rng : Rng) :
    ∃ dx dy dz : ℤ,
      (generate_random_block pos ty rng).1 =
        ⟨pos.x + dx, pos.y + dy, pos.z + dz⟩ ∧
      (ty = 0 → dy = -1 ∨ dy = 0 ∨ dy = 1) ∧
      (ty ≠ 0 → pos.y < ty → dy = 1) ∧
      (ty ≠ 0 → ¬ pos.y < ty → dy = -1) ∧
      (dy = 1 → 1 ≤ dz ∧ dz ≤ 2) ∧
      (dy = -1 → 2 ≤ dz ∧ dz ≤ 4) ∧
      (dy ≠ 1 → dy ≠ -1 → 1 ≤ dz ∧ dz ≤ 3) ∧
      (-3 ≤ dx ∧ dx ≤ 3) := by
  simp only [generate_random_block, genRange, Rng.next]
  norm_num
  split_ifs <;>
    refine ⟨_, _, _, ⟨rfl, rfl, rfl⟩, ?_, ?_, ?_, ?_, ?_, ?_, ?_⟩ <;>
      intros <;> omega

/-- C3: in Neutral bias `dy` is drawn from `{-1, 0, 1}`, in
ReturnToBaseline bias `dy` is forced to `1` when the baseline is above
the last foothold and to `-1` otherwise, `dz` is drawn from `[1,2]`,
`[2,4]` or `[1,3]` according to `dy`, `dx` is drawn from `[-3,3]`, and
the new foothold is `last + (dx, dy, dz)`; moreover every value of each
advertised range is realised by some stream state (the uniform draw of
`StdRng::gen_range` is modelled as a modular reduction of an abstract
uniform raw stream). -/
theorem generator_step_distribution (pos : BlockPos) (ty : ℤ) (rng : Rng) :
    (∃ dx dy dz : ℤ,
      (generate_random_block pos ty rng).1 =
        ⟨pos.x + dx, pos.y + dy, pos.z + dz⟩ ∧
      (ty = 0 → dy = -1 ∨ dy = 0 ∨ dy = 1) ∧
      (ty ≠ 0 → pos.y < ty → dy = 1) ∧
      (ty ≠ 0 → ¬ pos.y < ty → dy = -1) ∧
      (dy = 1 → 1 ≤ dz ∧ dz ≤ 2) ∧
      (dy = -1 → 2 ≤ dz ∧ dz ≤ 4) ∧
      (dy ≠ 1 → dy ≠ -1 → 1 ≤ dz ∧ dz ≤ 3) ∧
      (-3 ≤ dx ∧ dx ≤ 3)) ∧
    (∀ v : ℤ, v = -1 ∨ v = 0 ∨ v = 1 →
      ∃ r : Rng, (generate_random_block START_POS 0 r).1.y - START_POS.y = v) ∧
    (∀ v : ℤ, 1 ≤ v ∧ v ≤ 2 →
      ∃ r : Rng, (generate_random_block START_POS 101 r).1.z - START_POS.z = v) ∧
    (∀ v : ℤ, 2 ≤ v ∧ v ≤ 4 →
      ∃ r : Rng, (generate_random_block START_POS 1 r).1.z - START_POS.z = v) ∧
    (∀ v : ℤ, 1 ≤ v ∧ v ≤ 3 →
      ∃ r : Rng, (generate_random_block START_POS 0 r).1.y = START_POS.y ∧
        (generate_random_block START_POS 0 r).1.z - START_POS.z = v) ∧
    (∀ v : ℤ, -3 ≤ v ∧ v ≤ 3 →
      ∃ r : Rng, (generate_random_block START_POS 101 r).1.x - START_POS.x = v) := by
  refine ⟨generate_random_block_cases pos ty rng, ?_, ?_, ?_, ?_, ?_⟩
  · intro v hv
    rcases hv with rfl | rfl | rfl
    · exact ⟨⟨fun _ => 0, 0⟩, by decide⟩
    · exact ⟨⟨fun _ => 1, 0⟩, by decide⟩
    · exact ⟨⟨fun _ => 2, 0⟩, by decide⟩
  · intro v hv
    obtain ⟨h1, h2⟩ := hv
    interval_cases v
    · exact ⟨⟨fun _ => 0, 0⟩, by decide⟩
    · exact ⟨⟨fun _ => 1, 0⟩, by decide⟩
  · intro v hv
    obtain ⟨h1, h2⟩ := hv
    interval_cases v
    · exact ⟨⟨fun _ => 0, 0⟩, by decide⟩
    · exact ⟨⟨fun _ => 1, 0⟩, by decide⟩
    · exact ⟨⟨fun _ => 2, 0⟩, by decide⟩
  · intro v hv
    obtain ⟨h1, h2⟩ := hv
    interval_cases v
    · exact ⟨⟨fun n => if n = 0 then 1 else 0, 0⟩, by decide, by decide⟩
    · exact ⟨⟨fun n => if n = 0 then 1 else 1, 0⟩, by decide, by decide⟩
    · exact ⟨⟨fun n => if n = 0 then 1 else 2, 0⟩, by decide, by decide⟩
  · intro v hv
    obtain ⟨h1, h2⟩ := hv
    interval_cases v
    · exact ⟨⟨fun n => if n = 0 then 0 else 0, 0⟩, by decide⟩
    · exact ⟨⟨fun n => if n = 0 then 0 else 1, 0⟩, by decide⟩
    · exact ⟨⟨fun n => if n = 0 then 0 else 2, 0⟩, by decide⟩
    · exact ⟨⟨fun n => if n = 0 then 0 else 3, 0⟩, by decide⟩
    · exact ⟨⟨fun n => if n = 0 then 0 else 4, 0⟩, by decide⟩
    · exact ⟨⟨fun n => if n = 0 then 0 else 5, 0⟩, by decide⟩
    · exact ⟨⟨fun n => if n = 0 then 0 else 6, 0⟩, by decide⟩

/-! ### C7: leaderboard top-15 snapshot -/

lemma sortDescByScore_sorted (l : List ScoreEntry) :
    List.Pairwise scoreGE (sortDescByScore l) :=
  List.sorted_insertionSort scoreGE l

lemma sortDescByScore_perm (l : List ScoreEntry) :
    (sortDescByScore l).Perm l :=
  List.perm_insertionSort scoreGE l

lemma compute_top_15_sorted (l : List ScoreEntry) :
    List.Pairwise scoreGE (compute_top_15 l) :=
  (sortDescByScore_sorted l).sublist (List.take_sublist 15 _)

lemma compute_top_15_subset (l : List ScoreEntry) :
    ∀ p ∈ compute_top_15 l, p ∈ l := by
  intro p hp
  exact (sortDescByScore_perm l).mem_iff.mp (List.mem_of_mem_take hp)

lemma compute_top_15_highest (l : List ScoreEntry) :
    ∀ p ∈ l, p ∉ compute_top_15 l →
      ∀ q ∈ compute_top_15 l, p.2 ≤ q.2 := by
  intro p hp hnp q hq
  have hps : p ∈ sortDescByScore l := (sortDescByScore_perm l).mem_iff.mpr hp
  have hsp := sortDescByScore_sorted l
  rw [← List.take_append_drop 15 (sortDescByScore l)] at hps hsp
  rcases List.mem_append.mp hps with hin | hdrop
  · exact absurd hin hnp
  · exact (List.pairwise_append.mp hsp).2.2 q hq p hdrop

/-- C7 counterexample: with two identical scores the recomputed snapshot
is not sorted strictly descending - equal scores may both appear. -/
theorem top15_strictness_counterexample :
    ¬ List.Pairwise (fun a b : ScoreEntry => b.2 < a.2)
      (compute_top_15 [("a", 5), ("b", 5)]) := by
  decide

/-- C7 amended: every recomputed snapshot has size at most 15, is sorted
descending by score (non-strictly: entries with equal scores may both
appear), is a subset of the identity-to-best-score mapping consisting of
its 15 highest values, and a persist from the score-update path of
`manage_blocks` happens only when the recomputed snapshot differs from
the last-persisted one (and then the stored snapshot is updated to it). -/
theorem top15_invariant (m : List ScoreEntry) :
    (compute_top_15 m).length ≤ 15 ∧
    List.Pairwise scoreGE (compute_top_15 m) ∧
    (∀ p ∈ compute_top_15 m, p ∈ m) ∧
    (∀ p ∈ m, p ∉ compute_top_15 m → ∀ q ∈ compute_top_15 m, p.2 ≤ q.2) ∧
    (∀ (tr : ScoreTracker) (name : String) (sc : ℤ),
      (update_score_tracker tr name sc).2 = true →
      compute_top_15 (update_score_tracker tr name sc).1.scores ≠
        tr.last_saved_top_15 ∧
      (update_score_tracker tr name sc).1.last_saved_top_15 =
        compute_top_15 (update_score_tracker tr name sc).1.scores) := by
  refine ⟨List.length_take_le 15 _, compute_top_15_sorted m,
    compute_top_15_subset m, compute_top_15_highest m, ?_⟩
  intro tr name sc hp
  simp only [update_score_tracker] at hp ⊢
  split_ifs at hp ⊢ with h1 h2
  exact ⟨h2, rfl⟩

/-- Witness for C7 on a concrete mapping and a persisting update. -/
theorem top15_invariant_witness :
    (compute_top_15 [("a", (5 : ℤ)), ("b", 3)]).length ≤ 15 ∧
    List.Pairwise scoreGE (compute_top_15 [("a", (5 : ℤ)), ("b", 3)]) ∧
    ((update_score_tracker ⟨[("a", 5)], compute_top_15 [("a", 5)]⟩
        "b" 3).2 = true →
      compute_top_15 (update_score_tracker ⟨[("a", 5)],
        compute_top_15 [("a", 5)]⟩ "b" 3).1.scores ≠
        (⟨[("a", 5)], compute_top_15 [("a", 5)]⟩ : ScoreTracker).last_saved_top_15 ∧
      (update_score_tracker ⟨[("a", 5)], compute_top_15 [("a", 5)]⟩
        "b" 3).1.last_saved_top_15 =
        compute_top_15 (update_score_tracker ⟨[("a", 5)],
          compute_top_15 [("a", 5)]⟩ "b" 3).1.scores) :=
  ⟨(top15_invariant [("a", 5), ("b", 3)]).1,
   (top15_invariant [("a", 5), ("b", 3)]).2.1,
   (top15_invariant [("a", 5), ("b", 3)]).2.2.2.2
     ⟨[("a", 5)], compute_top_15 [("a", 5)]⟩ "b" 3⟩

/-! ### C8: ghost with an empty movement log -/

/-- A just-spawned ghost with an empty movement log. -/
def npcE : ReplayNpc := ⟨[], 0, 50, false⟩

/-- C8 counterexample: while the challenger score is still 0 (as it is
right after the trigger resets it), the next playback update keeps the
empty-log ghost instead of destroying it - the empty-log check sits
behind the replay-started gate. -/
theorem ghost_empty_log_counterexample :
    update_replay_npc 0 npcE 1000 = NpcResult.keep npcE none ∧
    update_replay_npc 0 npcE 1000 ≠ NpcResult.despawn := by
  refine ⟨by decide, by decide⟩

/-- C8 amended: a ghost holding an empty movement log survives playback
updates unchanged while its replay has not started and the challenger
score is 0; it is destroyed at the first playback update at which the
replay is started (the challenger has scored, or it had already
started).  The trigger itself does switch the challenger to the
record seed. -/
theorem ghost_empty_log_amended (npc : ReplayNpc) (oscore now : ℕ) :
    (npc.movements = [] → npc.replay_started = false → oscore = 0 →
      update_replay_npc oscore npc now = NpcResult.keep npc none) ∧
    (npc.movements = [] → (0 < oscore ∨ npc.replay_started = true) →
      update_replay_npc oscore npc now = NpcResult.despawn) ∧
    (∀ (seedRng : ℕ → Rng) (st : GameState) (hs : HighScore) (tnow : ℕ),
      (manage_blocks_trigger seedRng st hs tnow).seed = hs.seed) := by
  refine ⟨?_, ?_, ?_⟩
  · intro hm hs ho
    subst ho
    simp [update_replay_npc, hs]
  · intro hm ho
    rcases Bool.eq_false_or_eq_true npc.replay_started with hb | hb
    · simp [update_replay_npc, hb, hm]
    · have hosc : 0 < oscore := by
        rcases ho with h | h
        · exact h
        · rw [hb] at h
          exact absurd h (by simp)
      simp [update_replay_npc, hb, hm, hosc]
  · intro seedRng st hs tnow
    have he : manage_blocks_trigger seedRng st hs tnow =
        fillBlocks { st with
          seed := hs.seed, rng := seedRng hs.seed, score := 0,
          blocks := [START_POS] } 10 tnow := rfl
    rw [he]
    exact (fillBlocks_preserves 10 _ tnow).2.2.2.2.2

/-- Witness for C8 amended: the empty-log ghost is kept at score 0 and
despawned at the first update with positive challenger score. -/
theorem ghost_empty_log_amended_witness :
    (npcE.movements = [] ∧ npcE.replay_started = false ∧
      update_replay_npc 0 npcE 1000 = NpcResult.keep npcE none) ∧
    (update_replay_npc 3 npcE 1000 = NpcResult.despawn) :=
  ⟨⟨rfl, rfl,
    (ghost_empty_log_amended npcE 0 1000).1 rfl rfl rfl⟩,
   (ghost_empty_log_amended npcE 3 1000).2.1 rfl (Or.inl (by decide))⟩

/-! ### C9: ghost playback interpolation -/

/-- The playback sample at a cursor index (out-of-range reads return the
default, which the update function never does on the paths proved). -/
def sampleAt (ms : List PlayerMovement) (k : ℕ) : PlayerMovement :=
  ms.getD k default

lemma pairwise_ts_getD (ms : List PlayerMovement)
    (h : List.Pairwise (fun a b => a.timestamp < b.timestamp) ms) :
    ∀ a b : ℕ, a < b → b < ms.length →
      (ms.getD a default).timestamp < (ms.getD b default).timestamp := by
  intro a b hab hb
  have ha : a < ms.length := lt_trans hab hb
  rw [List.getD_eq_getElem ms default ha, List.getD_eq_getElem ms default hb]
  have := List.pairwise_iff_get.mp h ⟨a, ha⟩ ⟨b, hb⟩ hab
  simpa [List.get_eq_getElem] using this

/-- The cursor loop stops exactly at the last index whose timestamp is
at most `elapsed`, provided the fuel covers the remaining distance. -/
lemma advanceLoop_eq (ms : List PlayerMovement) (elapsed k : ℕ)
    (hk : k < ms.length)
    (hmono : ∀ a b : ℕ, a < b → b < ms.length →
      (ms.getD a default).timestamp < (ms.getD b default).timestamp)
    (hup : (ms.getD k default).timestamp ≤ elapsed)
    (hnext : k + 1 < ms.length →
      elapsed < (ms.getD (k + 1) default).timestamp) :
    ∀ fuel idx, idx ≤ k → k - idx ≤ fuel →
      advanceLoop ms elapsed fuel idx = k := by
  intro fuel
  induction fuel with
  | zero =>
    intro idx h1 h2
    have h3 : idx = k := by omega
    subst h3
    rfl
  | succ fuel ih =>
    intro idx h1 h2
    by_cases hik : idx = k
    · subst hik
      have hstop : ¬(idx + 1 < ms.length ∧
          (ms.getD (idx + 1) default).timestamp ≤ elapsed) := by
        rintro ⟨hc1, hc2⟩
        exact absurd hc2 (not_le.mpr (hnext hc1))
      show advanceLoop ms elapsed (fuel + 1) idx = idx
      rw [show advanceLoop ms elapsed (fuel + 1) idx =
          if idx + 1 < ms.length ∧
              (ms.getD (idx + 1) default).timestamp ≤ elapsed
          then advanceLoop ms elapsed fuel (idx + 1) else idx from rfl]
      rw [if_neg hstop]
    · have hlt : idx < k := lt_of_le_of_ne h1 hik
      have hgo : idx + 1 < ms.length ∧
          (ms.getD (idx + 1) default).timestamp ≤ elapsed := by
        refine ⟨by omega, ?_⟩
        by_cases he : idx + 1 = k
        · rw [he]; exact hup
        · exact le_of_lt (lt_of_lt_of_le
            (hmono (idx + 1) k (by omega) hk) hup)
      rw [show advanceLoop ms elapsed (fuel + 1) idx =
          if idx + 1 < ms.length ∧
              (ms.getD (idx + 1) default).timestamp ≤ elapsed
          then advanceLoop ms elapsed fuel (idx + 1) else idx from rfl]
      rw [if_pos hgo]
      exact ih (idx + 1) (by omega) (by omega)

/-- The fraction computed by the source (natural saturating subtractions,
ratio guarded by a positive difference, clamp) equals the spec formula
(exact signed ratio, clamp, with the equal-timestamp convention). -/
lemma codeFraction_eq_spec (curTs nextTs elapsed : ℕ) (h : curTs ≤ nextTs) :
    codeFraction curTs nextTs elapsed = specFraction curTs nextTs elapsed := by
  simp only [codeFraction, specFraction]
  split_ifs with h1 h2 h2
  · omega
  · rcases le_or_lt curTs elapsed with hel | hel
    · congr 2
      rw [Nat.cast_sub hel, Nat.cast_sub (by omega : curTs ≤ nextTs)]
    · have h0 : elapsed - curTs = 0 := by omega
      rw [h0]
      have hneg : ((elapsed : ℚ) - curTs) / ((nextTs : ℚ) - curTs) < 0 := by
        apply div_neg_of_neg_of_pos
        · have hc : (elapsed : ℚ) < curTs := by exact_mod_cast hel
          linarith
        · have hc : (curTs : ℚ) < nextTs := by
            have : curTs < nextTs := by omega
            exact_mod_cast this
          linarith
      rw [max_eq_left (le_of_lt hneg)]
      simp
  · norm_num
  · omega

lemma lerpQ_zero (a b : ℚ) : lerpQ a b 0 = a := by
  simp [lerpQ]

lemma lerpQ_one (a b : ℚ) : lerpQ a b 1 = b := by
  simp [lerpQ]

/-- In the two-sample branch the update writes the componentwise linear
interpolation between the current and next samples at the spec fraction. -/
lemma update_interpolates (oscore k0 k s now : ℕ)
    (ms : List PlayerMovement)
    (hne : ms ≠ [])
    (hK : advanceCursor ms (now - s) k0 = k)
    (hlen : k + 1 < ms.length)
    (hts : (sampleAt ms k).timestamp ≤ (sampleAt ms (k + 1)).timestamp) :
    update_replay_npc oscore ⟨ms, k0, s, true⟩ now =
      NpcResult.keep ⟨ms, k, s, true⟩
        (some ⟨(lerpQ (sampleAt ms k).position.1 (sampleAt ms (k + 1)).position.1
                  (specFraction (sampleAt ms k).timestamp
                    (sampleAt ms (k + 1)).timestamp (now - s)),
                lerpQ (sampleAt ms k).position.2.1
                  (sampleAt ms (k + 1)).position.2.1
                  (specFraction (sampleAt ms k).timestamp
                    (sampleAt ms (k + 1)).timestamp (now - s)),
                lerpQ (sampleAt ms k).position.2.2
                  (sampleAt ms (k + 1)).position.2.2
                  (specFraction (sampleAt ms k).timestamp
                    (sampleAt ms (k + 1)).timestamp (now - s))),
               lerpQ (sampleAt ms k).yaw (sampleAt ms (k + 1)).yaw
                 (specFraction (sampleAt ms k).timestamp
                   (sampleAt ms (k + 1)).timestamp (now - s)),
               lerpQ (sampleAt ms k).pitch (sampleAt ms (k + 1)).pitch
                 (specFraction (sampleAt ms k).timestamp
                   (sampleAt ms (k + 1)).timestamp (now - s))⟩) := by
  have hnk : ¬ ms.length ≤ k := by omega
  have hk1 : k < ms.length - 1 := by omega
  have hfr := codeFraction_eq_spec (sampleAt ms k).timestamp
    (sampleAt ms (k + 1)).timestamp (now - s) hts
  simp only [update_replay_npc, sampleAt] at *
  simp only [List.getD_eq_getElem?_getD] at hfr
  simp [hne, hK, hnk, hk1, hfr]

/-- At an elapsed time equal to the timestamp of sample `k` (timestamps
strictly increasing), the cursor lands at `k` and the written pose is
exactly that of sample `k` - no overshoot at either interval endpoint. -/
lemma update_at_sample (oscore k s now : ℕ) (ms : List PlayerMovement)
    (hsort : List.Pairwise (fun a b => a.timestamp < b.timestamp) ms)
    (hk : k < ms.length)
    (hnow : now - s = (sampleAt ms k).timestamp) :
    update_replay_npc oscore ⟨ms, 0, s, true⟩ now =
      NpcResult.keep ⟨ms, k, s, true⟩
        (some ⟨(sampleAt ms k).position, (sampleAt ms k).yaw,
               (sampleAt ms k).pitch⟩) := by
  have hmono := pairwise_ts_getD ms hsort
  have hne : ms ≠ [] := by
    intro h
    rw [h] at hk
    simp at hk
  have hadv : advanceCursor ms (now - s) 0 = k := by
    unfold advanceCursor
    refine advanceLoop_eq ms (now - s) k hk hmono ?_ ?_ ms.length 0
      (by omega) (by omega)
    · rw [hnow]
      exact le_refl _
    · intro hk1
      rw [hnow]
      exact hmono k (k + 1) (by omega) hk1
  have hnk : ¬ ms.length ≤ k := by omega
  by_cases hk1 : k < ms.length - 1
  · have hts : (sampleAt ms k).timestamp ≤ (sampleAt ms (k + 1)).timestamp :=
      le_of_lt (hmono k (k + 1) (by omega) (by omega))
    rw [update_interpolates oscore 0 k s now ms hne hadv (by omega) hts]
    have hfr : specFraction (sampleAt ms k).timestamp
        (sampleAt ms (k + 1)).timestamp (now - s) = 0 := by
      have hlt : (sampleAt ms k).timestamp < (sampleAt ms (k + 1)).timestamp :=
        hmono k (k + 1) (by omega) (by omega)
      simp only [specFraction]
      rw [if_neg (by omega)]
      rw [hnow, sub_self, zero_div]
      norm_num
    rw [hfr, lerpQ_zero, lerpQ_zero, lerpQ_zero, lerpQ_zero, lerpQ_zero]
  · simp only [update_replay_npc, sampleAt] at *
    simp [hne, hadv, hnk, hk1]

/-- C9: for a playback update with a current and a following sample, the
interpolation fraction computed by the code equals
`clamp((elapsed - cur.timestamp) / (next.timestamp - cur.timestamp), 0, 1)`
(defined as 1 when the timestamps are equal), the written pose is the
componentwise linear interpolation of position, yaw and pitch at that
fraction, and at an elapsed time equal to the timestamp of any sample the
written pose equals that sample exactly (so the `t = 0` and `t = 1`
interval endpoints are hit without overshoot). -/
theorem ghost_interpolation :
    (∀ curTs nextTs elapsed : ℕ, curTs ≤ nextTs →
      codeFraction curTs nextTs elapsed = specFraction curTs nextTs elapsed) ∧
    (∀ (oscore k0 k s now : ℕ) (ms : List PlayerMovement),
      ms ≠ [] →
      advanceCursor ms (now - s) k0 = k →
      k + 1 < ms.length →
      (sampleAt ms k).timestamp ≤ (sampleAt ms (k + 1)).timestamp →
      update_replay_npc oscore ⟨ms, k0, s, true⟩ now =
        NpcResult.keep ⟨ms, k, s, true⟩
          (some ⟨(lerpQ (sampleAt ms k).position.1
                    (sampleAt ms (k + 1)).position.1
                    (specFraction (sampleAt ms k).timestamp
                      (sampleAt ms (k + 1)).timestamp (now - s)),
                  lerpQ (sampleAt ms k).position.2.1
                    (sampleAt ms (k + 1)).position.2.1
                    (specFraction (sampleAt ms k).timestamp
                      (sampleAt ms (k + 1)).timestamp (now - s)),
                  lerpQ (sampleAt ms k).position.2.2
                    (sampleAt ms (k + 1)).position.2.2
                    (specFraction (sampleAt ms k).timestamp
                      (sampleAt ms (k + 1)).timestamp (now - s))),
                 lerpQ (sampleAt ms k).yaw (sampleAt ms (k + 1)).yaw
                   (specFraction (sampleAt ms k).timestamp
                     (sampleAt ms (k + 1)).timestamp (now - s)),
                 lerpQ (sampleAt ms k).pitch (sampleAt ms (k + 1)).pitch
                   (specFraction (sampleAt ms k).timestamp
                     (sampleAt ms (k + 1)).timestamp (now - s))⟩)) ∧
    (∀ (oscore k s now : ℕ) (ms : List PlayerMovement),
      List.Pairwise (fun a b => a.timestamp < b.timestamp) ms →
      k < ms.length →
      now - s = (sampleAt ms k).timestamp →
      update_replay_npc oscore ⟨ms, 0, s, true⟩ now =
        NpcResult.keep ⟨ms, k, s, true⟩
          (some ⟨(sampleAt ms k).position, (sampleAt ms k).yaw,
                 (sampleAt ms k).pitch⟩)) :=
  ⟨codeFraction_eq_spec,
   fun oscore k0 k s now ms hne hK hlen hts =>
     update_interpolates oscore k0 k s now ms hne hK hlen hts,
   fun oscore k s now ms hsort hk hnow =>
     update_at_sample oscore k s now ms hsort hk hnow⟩

/-- Two strictly-increasing samples used by the C9 witness. -/
def msW : List PlayerMovement :=
  [⟨(0, 100, 0), 0, 0, 0⟩, ⟨(3, 101, 2), 10, 5, 1000⟩]

/-- Witness for C9: at elapsed time equal to the second sample timestamp
the ghost pose equals that sample exactly. -/
theorem ghost_interpolation_witness :
    List.Pairwise (fun a b : PlayerMovement => a.timestamp < b.timestamp) msW ∧
    1 < msW.length ∧
    1050 - 50 = (sampleAt msW 1).timestamp ∧
    update_replay_npc 0 ⟨msW, 0, 50, true⟩ 1050 =
      NpcResult.keep ⟨msW, 1, 50, true⟩
        (some ⟨(sampleAt msW 1).position, (sampleAt msW 1).yaw,
               (sampleAt msW 1).pitch⟩) :=
  ⟨by decide, by decide, by decide,
   ghost_interpolation.2.2 0 1 50 1050 msW (by decide) (by decide) (by decide)⟩

/-- Witness for C3: the Neutral vertical draw realises the value 1 at a
concrete stream state. -/
theorem generator_step_distribution_witness :
    ((1 : ℤ) = -1 ∨ (1 : ℤ) = 0 ∨ (1 : ℤ) = 1) ∧
    ∃ r : Rng, (generate_random_block START_POS 0 r).1.y - START_POS.y = 1 :=
  ⟨by decide,
   (generator_step_distribution START_POS 0 ⟨fun _ => 0, 0⟩).2.1 1
     (by decide)⟩

end Parkour
